import Mathlib

/-!
Shallow embedding of the metrics aggregation engine of `generate.mjs`
(claude-usage-report) and proofs about it.

Token and message counters are integers, so counts are modelled as `ℤ`;
the two places where the script divides (`costEstimate`, `pct`) work in
`ℚ`.  A JavaScript value that may be `undefined` or `NaN` is modelled as
`Option ℤ`: `none` stands for the absent (or, in the result of an
arithmetic operation, NaN) case, and the `js*` helpers below reproduce
the JavaScript semantics of the individual operations the script performs
on such values (`undefined + x = NaN`, `undefined > x = false`,
`x || y`, `Math.max` with a NaN argument, ...).
`Array.prototype.sort` with a comparator `c` is required by ECMAScript to
be stable, so it is modelled by `List.insertionSort` (Mathlib's stable
sort) with the relation `a ≼ b ↔ c a b ≤ 0`.
-/

/-- A per-model token usage record (an entry of `stats.modelUsage`); every
field may be absent in the raw JSON. -/
structure Usage where
  inputTokens : Option ℤ
  outputTokens : Option ℤ
  cacheReadInputTokens : Option ℤ
  cacheCreationInputTokens : Option ℤ
deriving DecidableEq, Repr

/-- One element of `stats.dailyActivity`; the numeric fields may be absent. -/
structure DayRecord where
  date : String
  messageCount : Option ℤ
  sessionCount : Option ℤ
  toolCallCount : Option ℤ
deriving DecidableEq, Repr

/-- One entry of the ranked model list: the spread `{ id, ...u, total }`
built on line 33 of `generate.mjs`. -/
structure ModelAgg where
  id : String
  inputTokens : Option ℤ
  outputTokens : Option ℤ
  cacheReadInputTokens : Option ℤ
  cacheCreationInputTokens : Option ℤ
  total : ℤ
deriving DecidableEq, Repr

/-- JavaScript `+` on possibly absent operands: `undefined`/NaN poisons. -/
def jsAdd : Option ℤ → Option ℤ → Option ℤ
  | some x, some y => some (x + y)
  | _, _ => none

/-- JavaScript `a > b`: any comparison involving `undefined` (NaN) is false. -/
def jsGtB : Option ℤ → Option ℤ → Bool
  | some x, some y => decide (y < x)
  | _, _ => false

/-- JavaScript `Math.max` on two arguments: NaN if either is NaN. -/
def jsMax2 : Option ℤ → Option ℤ → Option ℤ
  | some x, some y => some (max x y)
  | _, _ => none

/-- JavaScript `a || b` for `a` a possibly absent number: `undefined` and
`0` are falsy. -/
def jsOr : Option ℤ → Option ℤ → Option ℤ
  | none, b => b
  | some x, b => if x = 0 then b else some x

/-- Line 30-33: `{ id, ...u, total }` with
`total = (u.inputTokens || 0) + (u.outputTokens || 0) +
(u.cacheReadInputTokens || 0) + (u.cacheCreationInputTokens || 0)`. -/
def mkModel (e : String × Usage) : ModelAgg :=
  { id := e.1
    inputTokens := e.2.inputTokens
    outputTokens := e.2.outputTokens
    cacheReadInputTokens := e.2.cacheReadInputTokens
    cacheCreationInputTokens := e.2.cacheCreationInputTokens
    total := e.2.inputTokens.getD 0 + e.2.outputTokens.getD 0 +
      e.2.cacheReadInputTokens.getD 0 + e.2.cacheCreationInputTokens.getD 0 }

/-- The preorder induced by the comparator `(a, b) => b.total - a.total`
of line 34: `a` may precede `b` iff `b.total - a.total ≤ 0`. -/
def leModel (a b : ModelAgg) : Prop := b.total ≤ a.total

instance : DecidableRel leModel := fun a b =>
  inferInstanceAs (Decidable (b.total ≤ a.total))

instance : IsTotal ModelAgg leModel := ⟨fun a b => le_total b.total a.total⟩

instance : IsTrans ModelAgg leModel := ⟨fun _ _ _ h1 h2 => le_trans h2 h1⟩

/-- Line 30-34: `Object.entries(stats.modelUsage).map(...).sort(...)`;
the mapping is given as its (insertion-ordered) entry list. -/
def models (mu : List (String × Usage)) : List ModelAgg :=
  List.insertionSort leModel (mu.map mkModel)

/-- Line 36: `models.reduce((s, m) => s + m.total, 0)`. -/
def totalTokens (mu : List (String × Usage)) : ℤ :=
  (models mu).foldl (fun s m => s + m.total) 0

/-- Line 37: `models.reduce((s, m) => s + (m.inputTokens || 0), 0)`. -/
def totalInput (mu : List (String × Usage)) : ℤ :=
  (models mu).foldl (fun s m => s + m.inputTokens.getD 0) 0

/-- Line 38: `models.reduce((s, m) => s + (m.outputTokens || 0), 0)`. -/
def totalOutput (mu : List (String × Usage)) : ℤ :=
  (models mu).foldl (fun s m => s + m.outputTokens.getD 0) 0

/-- Line 39: `models.reduce((s, m) => s + (m.cacheReadInputTokens || 0), 0)`. -/
def totalCacheRead (mu : List (String × Usage)) : ℤ :=
  (models mu).foldl (fun s m => s + m.cacheReadInputTokens.getD 0) 0

/-- Line 40: `models.reduce((s, m) => s + (m.cacheCreationInputTokens || 0), 0)`. -/
def totalCacheCreate (mu : List (String × Usage)) : ℤ :=
  (models mu).foldl (fun s m => s + m.cacheCreationInputTokens.getD 0) 0

/-- Line 43: `(totalInput * 15 + totalOutput * 75 + totalCacheRead * 1.5 +
totalCacheCreate * 3.75) / 1_000_000`. -/
def costEstimate (i o cr cc : ℚ) : ℚ :=
  (i * 15 + o * 75 + cr * 1.5 + cc * 3.75) / 1000000

/-- The sentinel `{ date: 'N/A', messageCount: 0 }` of line 53 (its other
fields are absent). -/
def sentinelDay : DayRecord :=
  { date := "N/A", messageCount := some 0, sessionCount := none, toolCallCount := none }

/-- The reducer `(max, d) => d.messageCount > max.messageCount ? d : max`
of line 53. -/
def peakStep (mx d : DayRecord) : DayRecord :=
  if jsGtB d.messageCount mx.messageCount then d else mx

/-- Line 53: `daily.reduce(peakStep, daily[0] || sentinel)`; with an
explicit initial accumulator the reduce also visits `daily[0]` itself. -/
def peakDay (daily : List DayRecord) : DayRecord :=
  daily.foldl peakStep (daily.headD sentinelDay)

/-- The preorder induced by the day comparator
`(a, b) => b.messageCount - a.messageCount` of line 56; a comparison whose
result is NaN is treated by `sort` like `0` (keep relative order). -/
def leDayB (a b : DayRecord) : Bool :=
  match a.messageCount, b.messageCount with
  | some x, some y => decide (y ≤ x)
  | _, _ => true

/-- Propositional form of `leDayB`. -/
def leDay (a b : DayRecord) : Prop := leDayB a b = true

instance : DecidableRel leDay := fun a b =>
  inferInstanceAs (Decidable (leDayB a b = true))

/-- The total preorder on day records by descending defaulted message
count; on records whose `messageCount` is present it agrees with `leDay`. -/
def leDayQ (a b : DayRecord) : Prop :=
  b.messageCount.getD 0 ≤ a.messageCount.getD 0

instance : DecidableRel leDayQ := fun a b =>
  inferInstanceAs (Decidable (b.messageCount.getD 0 ≤ a.messageCount.getD 0))

instance : IsTotal DayRecord leDayQ :=
  ⟨fun a b => le_total (b.messageCount.getD 0) (a.messageCount.getD 0)⟩

instance : IsTrans DayRecord leDayQ := ⟨fun _ _ _ h1 h2 => le_trans h2 h1⟩

/-- Line 56: `[...daily].sort((a, b) => b.messageCount - a.messageCount).slice(0, 5)`. -/
def topDays (daily : List DayRecord) : List DayRecord :=
  (List.insertionSort leDay daily).take 5

/-- The days left over after `topDays`: the rest of the sorted copy. -/
def topDaysRest (daily : List DayRecord) : List DayRecord :=
  (List.insertionSort leDay daily).drop 5

/-- Line 187: `Math.max(...daily.map(d => d.messageCount), 1)`. -/
def maxDailyMsg (daily : List DayRecord) : Option ℤ :=
  (daily.map (fun d => d.messageCount)).foldr jsMax2 (some 1)

/-- Line 60: `Math.max(...Object.values(hourCounts), 1)`; the mapping is
given as its value list. -/
def maxHourCount (hourValues : List ℤ) : ℤ :=
  hourValues.foldr max 1

/-- `daily.reduce((s, d) => s + f d, 0)` where the field `f d` is NOT
defaulted, as on lines 46-47 of `generate.mjs`. -/
def jsSumBy (f : DayRecord → Option ℤ) (daily : List DayRecord) : Option ℤ :=
  daily.foldl (fun s d => jsAdd s (f d)) (some 0)

/-- Line 46 fallback: `daily.reduce((s, d) => s + d.messageCount, 0)`. -/
def sumMessages : List DayRecord → Option ℤ :=
  jsSumBy (fun d => d.messageCount)

/-- Line 47 fallback: `daily.reduce((s, d) => s + d.sessionCount, 0)`. -/
def sumSessions : List DayRecord → Option ℤ :=
  jsSumBy (fun d => d.sessionCount)

/-- Line 48: `daily.reduce((s, d) => s + (d.toolCallCount || 0), 0)`. -/
def totalToolCalls (daily : List DayRecord) : ℤ :=
  daily.foldl (fun s d => s + d.toolCallCount.getD 0) 0

/-- Line 46: `stats.totalMessages || daily.reduce(...)`. -/
def totalMessages (statsField : Option ℤ) (daily : List DayRecord) : Option ℤ :=
  jsOr statsField (sumMessages daily)

/-- Line 47: `stats.totalSessions || daily.reduce(...)`. -/
def totalSessions (statsField : Option ℤ) (daily : List DayRecord) : Option ℤ :=
  jsOr statsField (sumSessions daily)

/-- `Number.prototype.toFixed(1)`: one fractional digit, rounding ties in
the magnitude away from zero, sign prefix for negative inputs. -/
def toFixed1 (q : ℚ) : String :=
  (if q < 0 then "-" else "") ++
    toString ((⌊|q| * 10 + 1 / 2⌋).toNat / 10) ++ "." ++
    toString ((⌊|q| * 10 + 1 / 2⌋).toNat % 10)

/-- Line 157-159: `pct(part, whole)` is
`whole ? ((part / whole) * 100).toFixed(1) : '0'`. -/
def pct (part whole : ℚ) : String :=
  if whole = 0 then "0" else toFixed1 (part / whole * 100)

/-- A `DayRecord` with every absent numeric field written as `0`. -/
def zeroFill (d : DayRecord) : DayRecord :=
  { date := d.date
    messageCount := some (d.messageCount.getD 0)
    sessionCount := some (d.sessionCount.getD 0)
    toolCallCount := some (d.toolCallCount.getD 0) }

/-- Scenario A usage record. -/
def usageA : Usage :=
  { inputTokens := some 1000000, outputTokens := some 2000000,
    cacheReadInputTokens := some 0, cacheCreationInputTokens := some 0 }

/-- Scenario A `modelUsage` mapping. -/
def modelUsageA : List (String × Usage) := [("m1", usageA)]

/-- Scenario B, first day. -/
def dayB1 : DayRecord :=
  { date := "2026-01-01", messageCount := some 10,
    sessionCount := some 0, toolCallCount := some 0 }

/-- Scenario B, second day. -/
def dayB2 : DayRecord :=
  { date := "2026-01-02", messageCount := some 50,
    sessionCount := some 0, toolCallCount := some 0 }

/-- Scenario B `dailyActivity`. -/
def dailyB : List DayRecord := [dayB1, dayB2]

/-- A day record with all numeric fields absent. -/
def dayN1 : DayRecord :=
  { date := "2026-01-01", messageCount := none,
    sessionCount := none, toolCallCount := none }

/-- A day record with message and session counts present. -/
def dayN2 : DayRecord :=
  { date := "2026-01-02", messageCount := some 5,
    sessionCount := some 1, toolCallCount := none }

/-- A `dailyActivity` in which the first record omits its counters. -/
def dailyN : List DayRecord := [dayN1, dayN2]

/-- Folding `fun s a => s + f a` over a list sums the images of `f`. -/
theorem foldl_add_eq_sum {α : Type} (f : α → ℤ) :
    ∀ (l : List α) (s : ℤ), l.foldl (fun s a => s + f a) s = s + (l.map f).sum := by
  intro l
  induction l with
  | nil => intro s; simp
  | cons a l ih => intro s; simp [ih, add_assoc]

/-- Each reduce on lines 36-40 sums a per-entry quantity over the whole
input mapping: sorting does not change a sum. -/
theorem models_foldl_sum (f : ModelAgg → ℤ) (mu : List (String × Usage)) :
    (models mu).foldl (fun s m => s + f m) 0 = (mu.map (fun e => f (mkModel e))).sum := by
  rw [foldl_add_eq_sum, zero_add]
  unfold models
  rw [((List.perm_insertionSort leModel (mu.map mkModel)).map f).sum_eq, List.map_map]
  rfl

/-- Inserting an element `a` of the class `p` into a list whose `p`-elements
all may come after `a` puts `a` in front of every `p`-element. -/
theorem filter_orderedInsert_pos {α : Type} (r : α → α → Prop) [DecidableRel r]
    (p : α → Bool) (a : α) (ha : p a = true) :
    ∀ l : List α, (∀ b ∈ l, p b = true → r a b) →
      (List.orderedInsert r a l).filter p = a :: l.filter p := by
  intro l
  induction l with
  | nil => intro _; simp [ha]
  | cons b l ih =>
    intro h
    by_cases hr : r a b
    · simp [List.orderedInsert, if_pos hr, List.filter_cons, ha]
    · have hb : p b = false := by
        cases hpb : p b with
        | false => rfl
        | true => exact absurd (h b (List.mem_cons_self b l) hpb) hr
      have ih2 := ih fun c hc hpc => h c (List.mem_cons_of_mem b hc) hpc
      simp [List.orderedInsert, if_neg hr, List.filter_cons, hb, ih2]

/-- Inserting an element outside the class `p` does not change the
`p`-elements. -/
theorem filter_orderedInsert_neg {α : Type} (r : α → α → Prop) [DecidableRel r]
    (p : α → Bool) (a : α) (ha : p a = false) :
    ∀ l : List α, (List.orderedInsert r a l).filter p = l.filter p := by
  intro l
  induction l with
  | nil => simp [ha]
  | cons b l ih =>
    by_cases hr : r a b
    · simp [List.orderedInsert, if_pos hr, List.filter_cons, ha]
    · simp [List.orderedInsert, if_neg hr, List.filter_cons, ih]

/-- Stability of the stable sort: if all elements of a class `p` are
`r`-interchangeable, sorting keeps the class in its original order. -/
theorem filter_insertionSort {α : Type} (r : α → α → Prop) [DecidableRel r]
    (p : α → Bool) (hp : ∀ a b, p a = true → p b = true → r a b) :
    ∀ l : List α, (List.insertionSort r l).filter p = l.filter p := by
  intro l
  induction l with
  | nil => rfl
  | cons a l ih =>
    show (List.orderedInsert r a (List.insertionSort r l)).filter p = _
    cases ha : p a with
    | true =>
      rw [filter_orderedInsert_pos r p a ha _
        (fun b _ hpb => hp a b ha hpb), ih, List.filter_cons, if_pos ha]
    | false =>
      rw [filter_orderedInsert_neg r p a ha, ih, List.filter_cons]
      simp [ha]

/-- A permutation of a list that is sorted by descending key and keeps every
key class in a fixed order is unique: this is the determinism of a stable
sort. -/
theorem stable_sorted_unique {α : Type} (key : α → ℤ) :
    ∀ l1 l2 : List α, l1.Perm l2 →
      List.Sorted (fun a b => key b ≤ key a) l1 →
      List.Sorted (fun a b => key b ≤ key a) l2 →
      (∀ t : ℤ, l1.filter (fun x => decide (key x = t)) =
        l2.filter (fun x => decide (key x = t))) →
      l1 = l2 := by
  intro l1
  induction l1 with
  | nil => intro l2 hperm _ _ _; exact (hperm.symm.eq_nil).symm
  | cons a l1 ih =>
    intro l2 hperm hs1 hs2 hfilt
    cases l2 with
    | nil => exact absurd hperm.eq_nil (List.cons_ne_nil a l1)
    | cons b l2 =>
      have hab : key b = key a := by
        have h1 : key b ≤ key a := by
          rcases List.mem_cons.mp (hperm.symm.subset (List.mem_cons_self b l2)) with h | h
          · rw [h]
          · exact List.rel_of_sorted_cons hs1 b h
        have h2 : key a ≤ key b := by
          rcases List.mem_cons.mp (hperm.subset (List.mem_cons_self a l1)) with h | h
          · rw [h]
          · exact List.rel_of_sorted_cons hs2 a h
        exact le_antisymm h1 h2
      have hf := hfilt (key a)
      rw [List.filter_cons, List.filter_cons, if_pos (by simp), if_pos (by simp [hab])] at hf
      have hba : b = a := by
        injection hf with h1 h2
        exact h1.symm
      subst hba
      have hperm2 : l1.Perm l2 := hperm.cons_inv
      have hfilt2 : ∀ t : ℤ, l1.filter (fun x => decide (key x = t)) =
          l2.filter (fun x => decide (key x = t)) := by
        intro t
        have h := hfilt t
        rw [List.filter_cons, List.filter_cons] at h
        by_cases hat : key b = t
        · rw [if_pos (by simp [hat]), if_pos (by simp [hat])] at h
          simpa using h
        · rwa [if_neg (by simp [hat]), if_neg (by simp [hat])] at h
      rw [ih l2 hperm2 hs1.of_cons hs2.of_cons hfilt2]

/-- Inserting with two relations that agree on the inserted element and
the list gives the same result. -/
theorem orderedInsert_congr {α : Type} (r s : α → α → Prop)
    [DecidableRel r] [DecidableRel s] (a : α) :
    ∀ l : List α, (∀ b ∈ l, (r a b ↔ s a b)) →
      List.orderedInsert r a l = List.orderedInsert s a l := by
  intro l
  induction l with
  | nil => intro _; rfl
  | cons b l ih =>
    intro h
    by_cases hr : r a b
    · simp only [List.orderedInsert]
      rw [if_pos hr, if_pos ((h b (List.mem_cons_self b l)).mp hr)]
    · simp only [List.orderedInsert]
      rw [if_neg hr, if_neg (fun hs => hr ((h b (List.mem_cons_self b l)).mpr hs)),
        ih (fun c hc => h c (List.mem_cons_of_mem b hc))]

/-- Sorting with two relations that agree on the list gives the same
result. -/
theorem insertionSort_congr {α : Type} (r s : α → α → Prop)
    [DecidableRel r] [DecidableRel s] :
    ∀ l : List α, (∀ a ∈ l, ∀ b ∈ l, (r a b ↔ s a b)) →
      List.insertionSort r l = List.insertionSort s l := by
  intro l
  induction l with
  | nil => intro _; rfl
  | cons a l ih =>
    intro h
    show List.orderedInsert r a (List.insertionSort r l) =
      List.orderedInsert s a (List.insertionSort s l)
    rw [ih (fun x hx y hy =>
      h x (List.mem_cons_of_mem a hx) y (List.mem_cons_of_mem a hy))]
    exact orderedInsert_congr r s a _ (fun b hb =>
      h a (List.mem_cons_self a l) b
        (List.mem_cons_of_mem a ((List.mem_insertionSort s).mp hb)))

/-- On a list whose records all carry a message count, the day sort is the
sort by the defaulted-value preorder, hence sorted by it. -/
theorem sorted_insertionSort_leDay (daily : List DayRecord)
    (hdef : ∀ d ∈ daily, d.messageCount.isSome = true) :
    List.Sorted leDayQ (List.insertionSort leDay daily) := by
  have hcong : List.insertionSort leDay daily = List.insertionSort leDayQ daily := by
    apply insertionSort_congr
    intro a ha b hb
    obtain ⟨x, hx⟩ := Option.isSome_iff_exists.mp (hdef a ha)
    obtain ⟨y, hy⟩ := Option.isSome_iff_exists.mp (hdef b hb)
    simp [leDay, leDayB, leDayQ, hx, hy]
  rw [hcong]
  exact List.sorted_insertionSort leDayQ daily

/-- The peak-day reducer leaves a record in place when compared with
itself. -/
theorem peakStep_self (d : DayRecord) : peakStep d d = d := by
  unfold peakStep
  exact ite_self d

/-- Characterisation of the peak-day fold: the result splits the scanned
list into a strictly smaller prefix, the result itself, and a no-larger
suffix — so the first record attaining the maximum wins. -/
theorem peak_char :
    ∀ (t : List DayRecord) (a : DayRecord),
      (∀ d ∈ a :: t, d.messageCount.isSome = true) →
      ∃ l1 l2 : List DayRecord,
        a :: t = l1 ++ (t.foldl peakStep a) :: l2 ∧
        (∀ d ∈ l1, d.messageCount.getD 0 < (t.foldl peakStep a).messageCount.getD 0) ∧
        (∀ d ∈ l2, d.messageCount.getD 0 ≤ (t.foldl peakStep a).messageCount.getD 0) := by
  intro t
  induction t with
  | nil =>
    intro a _
    exact ⟨[], [], rfl, by simp, by simp⟩
  | cons b t ih =>
    intro a hdef
    obtain ⟨x, hx⟩ := Option.isSome_iff_exists.mp
      (hdef a (List.mem_cons_self a (b :: t)))
    obtain ⟨y, hy⟩ := Option.isSome_iff_exists.mp
      (hdef b (List.mem_cons_of_mem a (List.mem_cons_self b t)))
    rw [List.foldl_cons]
    by_cases hxy : x < y
    · have hstep : peakStep a b = b := by
        unfold peakStep jsGtB
        rw [hx, hy]
        simp [hxy]
      rw [hstep]
      obtain ⟨l1, l2, heq, hl1, hl2⟩ :=
        ih b (fun d hd => hdef d (List.mem_cons_of_mem a hd))
      refine ⟨a :: l1, l2, ?_, ?_, hl2⟩
      · rw [List.cons_append]
        exact congrArg (List.cons a) heq
      · intro d hd
        have hbm : b.messageCount.getD 0 ≤
            (t.foldl peakStep b).messageCount.getD 0 := by
          cases l1 with
          | nil =>
            rw [List.nil_append] at heq
            injection heq with h1 _
            rw [← h1]
          | cons c l1 =>
            rw [List.cons_append] at heq
            injection heq with h1 _
            exact le_of_lt (h1 ▸ hl1 c (List.mem_cons_self c l1))
        rcases List.mem_cons.mp hd with h | h
        · rw [h, hx]
          rw [hy] at hbm
          exact lt_of_lt_of_le hxy hbm
        · exact hl1 d h
    · have hstep : peakStep a b = a := by
        unfold peakStep jsGtB
        rw [hx, hy]
        simp [hxy]
      rw [hstep]
      obtain ⟨l1, l2, heq, hl1, hl2⟩ := ih a (fun d hd => by
        rcases List.mem_cons.mp hd with h | h
        · rw [h]
          exact hdef a (List.mem_cons_self a (b :: t))
        · exact hdef d (List.mem_cons_of_mem a (List.mem_cons_of_mem b h)))
      have hyx : (y : ℤ) ≤ x := le_of_not_lt hxy
      cases l1 with
      | nil =>
        rw [List.nil_append] at heq
        injection heq with h1 h2
        refine ⟨[], b :: t, ?_, by simp, ?_⟩
        · rw [List.nil_append, ← h1]
        · intro d hd
          rcases List.mem_cons.mp hd with h | h
          · rw [h, hy, ← h1, hx]
            exact hyx
          · exact hl2 d (h2 ▸ h)
      | cons c l1 =>
        rw [List.cons_append] at heq
        injection heq with h1 h2
        have hcm : a.messageCount.getD 0 <
            (t.foldl peakStep a).messageCount.getD 0 :=
          h1 ▸ hl1 c (List.mem_cons_self c l1)
        refine ⟨a :: b :: l1, l2, ?_, ?_, hl2⟩
        · rw [List.cons_append, List.cons_append, ← h2]
        · intro d hd
          rcases List.mem_cons.mp hd with h | h
          · rw [h]
            exact hcm
          · rcases List.mem_cons.mp h with h3 | h3
            · rw [h3, hy]
              refine lt_of_le_of_lt ?_ hcm
              rw [hx]
              exact hyx
            · exact hl1 d (List.mem_cons_of_mem c h3)

/-- Folding the NaN-poisoning sum from a NaN accumulator stays NaN. -/
theorem jsSum_acc_none (f : DayRecord → Option ℤ) :
    ∀ l : List DayRecord, l.foldl (fun s d => jsAdd s (f d)) none = none := by
  intro l
  induction l with
  | nil => rfl
  | cons a l ih =>
    rw [List.foldl_cons]
    exact ih

/-- If some record's field is absent, the undefaulted reduce of lines
46-47 is NaN. -/
theorem jsSumBy_none_of_mem (f : DayRecord → Option ℤ) :
    ∀ (l : List DayRecord) (s : Option ℤ) (d : DayRecord), d ∈ l → f d = none →
      l.foldl (fun s d => jsAdd s (f d)) s = none := by
  intro l
  induction l with
  | nil =>
    intro s d hd _
    exact absurd hd (List.not_mem_nil d)
  | cons a l ih =>
    intro s d hd hfd
    rw [List.foldl_cons]
    rcases List.mem_cons.mp hd with h | h
    · have hnone : jsAdd s (f a) = none := by
        rw [← h, hfd]
        cases s <;> rfl
      rw [hnone]
      exact jsSum_acc_none f l
    · exact ih _ d h hfd

/-- If every record's field is present, the undefaulted reduce computes
the plain sum of the (defaulted) values. -/
theorem jsSumBy_defined (f : DayRecord → Option ℤ) :
    ∀ (l : List DayRecord) (s : ℤ), (∀ d ∈ l, (f d).isSome = true) →
      l.foldl (fun s d => jsAdd s (f d)) (some s) =
        some (s + (l.map (fun d => (f d).getD 0)).sum) := by
  intro l
  induction l with
  | nil =>
    intro s _
    simp
  | cons a l ih =>
    intro s h
    obtain ⟨x, hx⟩ := Option.isSome_iff_exists.mp (h a (List.mem_cons_self a l))
    rw [List.foldl_cons]
    have hstep : jsAdd (some s) (f a) = some (s + x) := by
      rw [hx]
      rfl
    rw [hstep, ih (s + x) (fun d hd => h d (List.mem_cons_of_mem a hd))]
    simp [hx, add_assoc]

/-- The four grand totals of the Scenario A snapshot. -/
theorem totalsA_eval :
    totalInput modelUsageA = 1000000 ∧ totalOutput modelUsageA = 2000000 ∧
    totalCacheRead modelUsageA = 0 ∧ totalCacheCreate modelUsageA = 0 := by
  exact ⟨by decide, by decide, by decide, by decide⟩

/-- C1: `totalTokens` is the sum over all models of the four (defaulted)
token fields, and each grand-total scalar is the sum of its category over
all models. -/
theorem claim_C1_totals_consistency (mu : List (String × Usage)) :
    totalTokens mu = (mu.map (fun e =>
      e.2.inputTokens.getD 0 + e.2.outputTokens.getD 0 +
        e.2.cacheReadInputTokens.getD 0 + e.2.cacheCreationInputTokens.getD 0)).sum ∧
    totalInput mu = (mu.map (fun e => e.2.inputTokens.getD 0)).sum ∧
    totalOutput mu = (mu.map (fun e => e.2.outputTokens.getD 0)).sum ∧
    totalCacheRead mu = (mu.map (fun e => e.2.cacheReadInputTokens.getD 0)).sum ∧
    totalCacheCreate mu = (mu.map (fun e => e.2.cacheCreationInputTokens.getD 0)).sum := by
  exact ⟨models_foldl_sum (fun m => m.total) mu,
    models_foldl_sum (fun m => m.inputTokens.getD 0) mu,
    models_foldl_sum (fun m => m.outputTokens.getD 0) mu,
    models_foldl_sum (fun m => m.cacheReadInputTokens.getD 0) mu,
    models_foldl_sum (fun m => m.cacheCreationInputTokens.getD 0) mu⟩

/-- C2: the model aggregator emits exactly one entry per input key (a
permutation of the per-entry images, zero-total entries included), sorted
descending by total, with tie classes kept in input order; any list with
these properties is equal to its output, so the output order is fully
determined by the input. -/
theorem claim_C2_model_aggregator (mu : List (String × Usage)) :
    (models mu).Perm (mu.map mkModel) ∧
    (models mu).length = mu.length ∧
    List.Sorted leModel (models mu) ∧
    (∀ t : ℤ, (models mu).filter (fun m => decide (m.total = t)) =
      (mu.map mkModel).filter (fun m => decide (m.total = t))) ∧
    (∀ l : List ModelAgg, l.Perm (mu.map mkModel) → List.Sorted leModel l →
      (∀ t : ℤ, l.filter (fun m => decide (m.total = t)) =
        (mu.map mkModel).filter (fun m => decide (m.total = t))) →
      l = models mu) := by
  have hperm : (models mu).Perm (mu.map mkModel) :=
    List.perm_insertionSort leModel (mu.map mkModel)
  have hfilt : ∀ t : ℤ, (models mu).filter (fun m => decide (m.total = t)) =
      (mu.map mkModel).filter (fun m => decide (m.total = t)) := by
    intro t
    exact filter_insertionSort leModel (fun m => decide (m.total = t))
      (fun a b ha hb => by
        have ha2 : a.total = t := by simpa using ha
        have hb2 : b.total = t := by simpa using hb
        exact le_of_eq (hb2.trans ha2.symm)) (mu.map mkModel)
  refine ⟨hperm, by rw [hperm.length_eq, List.length_map], ?_, hfilt, ?_⟩
  · exact List.sorted_insertionSort leModel (mu.map mkModel)
  · intro l hlperm hlsorted hlfilt
    exact stable_sorted_unique ModelAgg.total l (models mu)
      (hlperm.trans hperm.symm) hlsorted
      (List.sorted_insertionSort leModel (mu.map mkModel))
      (fun t => (hlfilt t).trans (hfilt t).symm)

/-- Witness for C2: the uniqueness clause applied to the Scenario A
mapping, whose one-entry image list is trivially sorted and stable. -/
theorem claim_C2_model_aggregator_check :
    [mkModel ("m1", usageA)] = models modelUsageA :=
  (claim_C2_model_aggregator modelUsageA).2.2.2.2 [mkModel ("m1", usageA)]
    (List.Perm.refl _) (List.sorted_singleton _) (fun _ => rfl)

/-- C5: the cost estimate is the fixed-rate linear form
`(i * R_in + o * R_out + cr * R_cacheRead + cc * R_cacheCreate) / 1000000`
for input-independent rates; doubling all four totals doubles it, and it is
`0` at all-zero totals. -/
theorem claim_C5_cost_linear :
    (∀ i o cr cc : ℚ,
      costEstimate (2 * i) (2 * o) (2 * cr) (2 * cc) = 2 * costEstimate i o cr cc) ∧
    costEstimate 0 0 0 0 = 0 ∧
    ∃ rIn rOut rCr rCc : ℚ, ∀ i o cr cc : ℚ,
      costEstimate i o cr cc = (i * rIn + o * rOut + cr * rCr + cc * rCc) / 1000000 := by
  refine ⟨fun i o cr cc => ?_, by norm_num [costEstimate], 15, 75, 1.5, 3.75, fun i o cr cc => rfl⟩
  unfold costEstimate
  ring

/-- C6 as stated is false: on the Scenario A snapshot the engine computes a
cost estimate of `165`, not `55` (the rate table on line 43 of
`generate.mjs` is `$15/$75/$1.50/$3.75` per million, not
`$5/$25/$0.50/$6.25`). -/
theorem claim_C6_counterexample :
    costEstimate (totalInput modelUsageA) (totalOutput modelUsageA)
      (totalCacheRead modelUsageA) (totalCacheCreate modelUsageA) ≠ 55 := by
  have h1 : totalInput modelUsageA = 1000000 := by decide
  have h2 : totalOutput modelUsageA = 2000000 := by decide
  have h3 : totalCacheRead modelUsageA = 0 := by decide
  have h4 : totalCacheCreate modelUsageA = 0 := by decide
  rw [h1, h2, h3, h4]
  norm_num [costEstimate]

/-- C6 (amended): the engine's rate table is `$15/$75/$1.50/$3.75` per
million tokens, and on the Scenario A snapshot the resulting cost estimate
equals `(1000000 * 15 + 2000000 * 75) / 1e6 = 165`. -/
theorem claim_C6_scenarioA :
    (∀ i o cr cc : ℚ,
      costEstimate i o cr cc = (i * 15 + o * 75 + cr * 1.5 + cc * 3.75) / 1000000) ∧
    costEstimate (totalInput modelUsageA) (totalOutput modelUsageA)
      (totalCacheRead modelUsageA) (totalCacheCreate modelUsageA) =
      (1000000 * 15 + 2000000 * 75) / 1000000 ∧
    costEstimate (totalInput modelUsageA) (totalOutput modelUsageA)
      (totalCacheRead modelUsageA) (totalCacheCreate modelUsageA) = 165 := by
  have h1 : totalInput modelUsageA = 1000000 := by decide
  have h2 : totalOutput modelUsageA = 2000000 := by decide
  have h3 : totalCacheRead modelUsageA = 0 := by decide
  have h4 : totalCacheCreate modelUsageA = 0 := by decide
  rw [h1, h2, h3, h4]
  refine ⟨fun i o cr cc => rfl, by norm_num [costEstimate], by norm_num [costEstimate]⟩

/-- C7: the safe-percentage function returns `"0"` whenever the whole is
`0` (for any part, including `0`), and otherwise renders
`part / whole * 100` to one decimal place; in particular
`pct 50 200 = "25.0"`. -/
theorem claim_C7_pct_safe :
    (∀ x : ℚ, pct x 0 = "0") ∧
    (∀ x w : ℚ, w ≠ 0 → pct x w = toFixed1 (x / w * 100)) ∧
    pct 50 200 = "25.0" := by
  refine ⟨fun x => rfl, fun x w hw => ?_, ?_⟩
  · unfold pct
    rw [if_neg hw]
  · have hq : (50 : ℚ) / 200 * 100 = 25 := by norm_num
    have hf : ⌊|(25 : ℚ)| * 10 + 1 / 2⌋ = 250 := by
      rw [abs_of_nonneg (by norm_num), Int.floor_eq_iff]
      norm_num
    unfold pct toFixed1
    rw [if_neg (by norm_num : (200 : ℚ) ≠ 0), hq, hf, if_neg (by norm_num : ¬(25 : ℚ) < 0)]
    rfl

/-- Witness for C7 at concrete inputs. -/
theorem claim_C7_pct_safe_check :
    pct 7 0 = "0" ∧ pct 7 4 = toFixed1 (7 / 4 * 100) :=
  ⟨claim_C7_pct_safe.1 7, claim_C7_pct_safe.2.1 7 4 (by norm_num)⟩

/-- C8: empty input collections yield the fixed fallbacks: the sentinel
peak day, empty top-days, normalization denominators `1`, an empty model
list, zero token totals and a zero cost estimate. -/
theorem claim_C8_empty_inputs :
    peakDay [] = sentinelDay ∧
    topDays [] = [] ∧
    maxDailyMsg [] = some 1 ∧
    maxHourCount [] = 1 ∧
    models [] = [] ∧
    totalTokens [] = 0 ∧
    totalInput [] = 0 ∧ totalOutput [] = 0 ∧
    totalCacheRead [] = 0 ∧ totalCacheCreate [] = 0 ∧
    costEstimate (totalInput []) (totalOutput [])
      (totalCacheRead []) (totalCacheCreate []) = 0 := by
  refine ⟨rfl, rfl, rfl, rfl, rfl, rfl, rfl, rfl, rfl, rfl, ?_⟩
  norm_num [costEstimate, totalInput, totalOutput, totalCacheRead, totalCacheCreate, models]

/-- C3: the peak day is the left-to-right reduce of line 53 that replaces
the accumulator only on strictly greater message counts, so the first
record among ties wins: the scanned list splits into a strictly smaller
prefix, the peak itself, and a no-larger suffix.  On Scenario B the peak
day is `2026-01-02` and the top days are `[day2, day1]`. -/
theorem claim_C3_peakDay (daily : List DayRecord) (hne : daily ≠ [])
    (hdef : ∀ d ∈ daily, d.messageCount.isSome = true) :
    (∃ l1 l2 : List DayRecord,
      daily = l1 ++ peakDay daily :: l2 ∧
      (∀ d ∈ l1, d.messageCount.getD 0 < (peakDay daily).messageCount.getD 0) ∧
      (∀ d ∈ l2, d.messageCount.getD 0 ≤ (peakDay daily).messageCount.getD 0)) ∧
    (peakDay dailyB).date = "2026-01-02" ∧
    topDays dailyB = [dayB2, dayB1] := by
  refine ⟨?_, by decide, by decide⟩
  cases daily with
  | nil => exact absurd rfl hne
  | cons h t =>
    have hpd : peakDay (h :: t) = t.foldl peakStep h := by
      unfold peakDay
      rw [List.headD_cons, List.foldl_cons, peakStep_self]
    rw [hpd]
    exact peak_char t h hdef

/-- Witness for C3: the characterisation applied to the Scenario B
activity list. -/
theorem claim_C3_peakDay_check :
    (∃ l1 l2 : List DayRecord,
      dailyB = l1 ++ peakDay dailyB :: l2 ∧
      (∀ d ∈ l1, d.messageCount.getD 0 < (peakDay dailyB).messageCount.getD 0) ∧
      (∀ d ∈ l2, d.messageCount.getD 0 ≤ (peakDay dailyB).messageCount.getD 0)) ∧
    (peakDay dailyB).date = "2026-01-02" ∧
    topDays dailyB = [dayB2, dayB1] :=
  claim_C3_peakDay dailyB (by decide) (by decide)

/-- C4: `topDays` is the first five entries of the stable descending sort
of `dailyActivity`: it has length `min 5 n`, together with the leftover
days it is a permutation of the input, equal-count classes stay in input
order, and every kept day has at least the message count of every left
over day. -/
theorem claim_C4_topDays (daily : List DayRecord)
    (hdef : ∀ d ∈ daily, d.messageCount.isSome = true) :
    (topDays daily).length = min 5 daily.length ∧
    daily.Perm (topDays daily ++ topDaysRest daily) ∧
    (∀ t : ℤ, (List.insertionSort leDay daily).filter
        (fun d => decide (d.messageCount = some t)) =
      daily.filter (fun d => decide (d.messageCount = some t))) ∧
    (∀ a ∈ topDays daily, ∀ b ∈ topDaysRest daily,
      b.messageCount.getD 0 ≤ a.messageCount.getD 0) := by
  refine ⟨?_, ?_, ?_, ?_⟩
  · unfold topDays
    rw [List.length_take, List.length_insertionSort]
  · unfold topDays topDaysRest
    rw [List.take_append_drop]
    exact (List.perm_insertionSort leDay daily).symm
  · intro t
    apply filter_insertionSort
    intro a b ha hb
    have ha2 : a.messageCount = some t := by simpa using ha
    have hb2 : b.messageCount = some t := by simpa using hb
    simp [leDay, leDayB, ha2, hb2]
  · intro a ha b hb
    exact (sorted_insertionSort_leDay daily hdef).rel_of_mem_take_of_mem_drop ha hb

/-- Witness for C4 at the Scenario B activity list. -/
theorem claim_C4_topDays_check :
    (topDays dailyB).length = min 5 dailyB.length ∧
    dailyB.Perm (topDays dailyB ++ topDaysRest dailyB) ∧
    (∀ t : ℤ, (List.insertionSort leDay dailyB).filter
        (fun d => decide (d.messageCount = some t)) =
      dailyB.filter (fun d => decide (d.messageCount = some t))) ∧
    (∀ a ∈ topDays dailyB, ∀ b ∈ topDaysRest dailyB,
      b.messageCount.getD 0 ≤ a.messageCount.getD 0) :=
  claim_C4_topDays dailyB (by decide)

/-- C9 as stated is false: on `dailyN` (whose first record omits all
counters) the fallback `totalMessages` is NaN rather than the zero-filled
sum `5`, and the peak day differs from the zero-filled peak day. -/
theorem claim_C9_counterexample :
    totalMessages none dailyN = none ∧
    totalMessages none (dailyN.map zeroFill) = some 5 ∧
    peakDay dailyN ≠ peakDay (dailyN.map zeroFill) := by
  exact ⟨by decide, by decide, by decide⟩

/-- C9 (amended): only `toolCallCount` is defaulted to `0` when absent
(`totalToolCalls` is unchanged by zero-filling).  The fallback sums of
lines 46-47 do not default: one absent `messageCount` (resp.
`sessionCount`) makes the whole sum NaN; when every record carries the
field, the fallback sum is the plain sum of the values. -/
theorem claim_C9_defaults (daily : List DayRecord) :
    totalToolCalls daily = totalToolCalls (daily.map zeroFill) ∧
    (∀ d ∈ daily, d.messageCount = none → sumMessages daily = none) ∧
    (∀ d ∈ daily, d.sessionCount = none → sumSessions daily = none) ∧
    ((∀ d ∈ daily, d.messageCount.isSome = true) →
      sumMessages daily = some ((daily.map (fun d => d.messageCount.getD 0)).sum)) ∧
    ((∀ d ∈ daily, d.sessionCount.isSome = true) →
      sumSessions daily = some ((daily.map (fun d => d.sessionCount.getD 0)).sum)) := by
  refine ⟨?_, ?_, ?_, ?_, ?_⟩
  · unfold totalToolCalls
    rw [List.foldl_map]
    rfl
  · intro d hd hnone
    exact jsSumBy_none_of_mem (fun d => d.messageCount) daily (some 0) d hd hnone
  · intro d hd hnone
    exact jsSumBy_none_of_mem (fun d => d.sessionCount) daily (some 0) d hd hnone
  · intro h
    have := jsSumBy_defined (fun d => d.messageCount) daily 0 h
    simpa using this
  · intro h
    have := jsSumBy_defined (fun d => d.sessionCount) daily 0 h
    simpa using this

/-- Witness for C9's amended statement: the NaN clauses at `dailyN`, the
defaulting clauses at `dailyB`. -/
theorem claim_C9_defaults_check :
    totalToolCalls dailyN = totalToolCalls (dailyN.map zeroFill) ∧
    sumMessages dailyN = none ∧
    sumSessions dailyN = none ∧
    sumMessages dailyB = some 60 ∧
    sumSessions dailyB = some 0 := by
  refine ⟨(claim_C9_defaults dailyN).1,
    (claim_C9_defaults dailyN).2.1 dayN1 (by decide) rfl,
    (claim_C9_defaults dailyN).2.2.1 dayN1 (by decide) rfl,
    ((claim_C9_defaults dailyB).2.2.2.1 (by decide)).trans (by decide),
    ((claim_C9_defaults dailyB).2.2.2.2 (by decide)).trans (by decide)⟩

/-- C10: a zero or absent `stats.totalMessages`/`stats.totalSessions`
counter is discarded in favour of the sum over `dailyActivity`, while a
present nonzero counter passes through unchanged whatever the daily
activity is. -/
theorem claim_C10_zero_fallback (daily : List DayRecord) :
    totalMessages none daily = sumMessages daily ∧
    totalMessages (some 0) daily = sumMessages daily ∧
    (∀ x : ℤ, x ≠ 0 → totalMessages (some x) daily = some x) ∧
    totalSessions none daily = sumSessions daily ∧
    totalSessions (some 0) daily = sumSessions daily ∧
    (∀ x : ℤ, x ≠ 0 → totalSessions (some x) daily = some x) := by
  refine ⟨rfl, ?_, fun x hx => ?_, rfl, ?_, fun x hx => ?_⟩
  · simp [totalMessages, jsOr]
  · simp [totalMessages, jsOr, hx]
  · simp [totalSessions, jsOr]
  · simp [totalSessions, jsOr, hx]

/-- Witness for C10 at Scenario B with the nonzero counter `7`. -/
theorem claim_C10_zero_fallback_check :
    totalMessages (some 0) dailyB = sumMessages dailyB ∧
    totalMessages (some 7) dailyB = some 7 ∧
    totalSessions (some 7) dailyB = some 7 :=
  ⟨(claim_C10_zero_fallback dailyB).2.1,
    (claim_C10_zero_fallback dailyB).2.2.1 7 (by decide),
    (claim_C10_zero_fallback dailyB).2.2.2.2.2 7 (by decide)⟩
